import Mathlib

/-!
Shallow embedding of quicktree (src/app.py), a Qt file-tree viewer.

The file-system model (Qt QFileSystemModel) is embedded as a rose tree
FSNode; a QModelIndex is embedded as the list of child-row numbers from
the view root (the view root itself is the empty list, and an index is
valid exactly when it resolves in the tree).  The mutable widget state of
MainWindow (root path, search text, status bar, clipboard, the set of
expanded tree rows, the model name filters, the selection) is an AppState
record, and each Python event handler becomes a state-passing function.
OS queries (os.path.isdir, os.path.abspath, os.path.dirname) are abstract
functions collected in a FileSystem environment.
-/

/-- Node of the file-system model: display name, directory flag, children
in row order (QFileSystemModel.rowCount is the number of children and
model.index(r, 0, idx) is child number r). -/
inductive FSNode where
  | node : String → Bool → List FSNode → FSNode
deriving Repr

def FSNode.name : FSNode → String
  | .node n _ _ => n

def FSNode.isDir : FSNode → Bool
  | .node _ d _ => d

def FSNode.children : FSNode → List FSNode
  | .node _ _ cs => cs

/-- Resolve a model index (path of child rows from the view root) to the
node it denotes; none embeds QModelIndex.isValid() = False. -/
def resolve : FSNode → List Nat → Option FSNode
  | t, [] => some t
  | t, r :: rs =>
    match t.children.get? r with
    | some c => resolve c rs
    | none => none

/-- Python str.lower (embedded characterwise, as for Lean String.toLower,
but by structural recursion on the character list so that it evaluates in
the kernel). -/
def pyLower (s : String) : String :=
  (s.data.map Char.toLower).asString

/-- Python str.strip: drop whitespace from both ends. -/
def pyStrip (s : String) : String :=
  ((s.data.dropWhile Char.isWhitespace).reverse.dropWhile Char.isWhitespace).reverse.asString

/-- Prefix test on character lists. -/
def charListPre : List Char → List Char → Bool
  | [], _ => true
  | _ :: _, [] => false
  | a :: as, b :: bs => a == b && charListPre as bs

/-- Substring occurrence on character lists: the needle is a prefix of
some suffix of the haystack. -/
def charListContains (hay needle : List Char) : Bool :=
  charListPre needle hay ||
    match hay with
    | [] => false
    | _ :: t => charListContains t needle

/-- Python substring test: strContains hay needle embeds `needle in hay`. -/
def strContains (hay needle : String) : Bool :=
  charListContains hay.data needle.data

/-- Python str.split(";"): split on every semicolon, keeping empty parts,
so the empty string yields a single empty part. -/
def pySplitSemiAux : List Char → List Char → List String
  | [], acc => [acc.reverse.asString]
  | c :: cs, acc =>
    if c = ';' then acc.reverse.asString :: pySplitSemiAux cs []
    else pySplitSemiAux cs (c :: acc)

def pySplitSemi (s : String) : List String :=
  pySplitSemiAux s.data []

/-- Embedding of the inner while loop of _expand_matching_under
(`p = idx; while p.isValid(): self.tree.expand(p); p = p.parent()`):
record the index and every ancestor up to the view root as expanded. -/
def expandWithAncestors (p : List Nat) (ex : List (List Nat)) : List (List Nat) :=
  if h : p = [] then [] :: ex
  else expandWithAncestors p.dropLast (p :: ex)
termination_by p.length
decreasing_by
  simp only [List.length_dropLast]
  have hpos : 0 < p.length := List.length_pos.mpr h
  omega

/-- Children pushed onto the stack at a directory node: the Python loop
appends rows - 1 down to 0, so with the stack top at the list head the
block reads in increasing row order; invalid children are skipped. -/
def pushChildren (fs : FSNode) (idx : List Nat) (rows : Nat) : List (List Nat) :=
  (List.range rows).filterMap (fun r =>
    if (resolve fs (idx ++ [r])).isSome then some (idx ++ [r]) else none)

/-- Result of the traversal: the expanded set after the walk, the stack
entries popped by the while loop in order (most recent first; a ghost
record of the iterations), and the remaining budget that the Python
function returns. -/
structure WalkResult where
  expanded : List (List Nat)
  visited : List (List Nat)
  remaining : Nat
deriving Repr, DecidableEq

/-- The while loop of _expand_matching_under: pop an index, decrement the
budget, skip invalid indexes, expand the node and its ancestors when the
lowercase file name contains the needle, and push the children of
directory nodes. -/
def expandMatchingLoop (fs : FSNode) (needle : String) :
    List (List Nat) → Nat → List (List Nat) → List (List Nat) → WalkResult
  | [], fuel, ex, vis => ⟨ex, vis, fuel⟩
  | _ :: _, 0, ex, vis => ⟨ex, vis, 0⟩
  | idx :: rest, fuel + 1, ex, vis =>
    match resolve fs idx with
    | none => expandMatchingLoop fs needle rest fuel ex (idx :: vis)
    | some nd =>
      let ex1 := if strContains (pyLower nd.name) needle then expandWithAncestors idx ex else ex
      let stack1 := if nd.isDir then pushChildren fs idx nd.children.length ++ rest else rest
      expandMatchingLoop fs needle stack1 fuel ex1 (idx :: vis)

/-- MainWindow._expand_matching_under(parent, needle, max_nodes), with the
model tree and the current expansion state passed explicitly. -/
def expand_matching_under (fs : FSNode) (ex : List (List Nat))
    (parent : List Nat) (needle : String) (max_nodes : Nat) : WalkResult :=
  expandMatchingLoop fs needle [parent] max_nodes ex []

/-- A visited index matches when it is valid and its lowercase file name
contains the (already lowercased) needle. -/
def matchesNeedle (fs : FSNode) (needle : String) (q : List Nat) : Bool :=
  match resolve fs q with
  | some nd => strContains (pyLower nd.name) needle
  | none => false

/-- OS path environment: os.path.isdir, os.path.abspath, os.path.dirname
as abstract queries. -/
structure FileSystem where
  isDirPath : String → Bool
  absPath : String → String
  dirname : String → String

/-- Mutable widget state of MainWindow.  fs is the model tree under the
current view root; expanded is the set of tree rows QTreeView records as
expanded; statusMessage/statusTimeout mirror QStatusBar.showMessage (a
timeout of 0 is a persistent message); selectedRows mirrors
selectionModel().selectedRows(0). -/
structure AppState where
  fs : FSNode
  rootPath : String
  searchText : String
  statusMessage : String
  statusTimeout : Nat
  clipboard : Option String
  expanded : List (List Nat)
  nameFilters : List String
  nameFilterDisables : Bool
  selectedRows : List (List Nat)

/-- MainWindow._set_status_root. -/
def set_status_root (st : AppState) (root : String) : AppState :=
  { st with statusMessage := "Root: " ++ root, statusTimeout := 0 }

/-- MainWindow._filter_tree: collapse everything, then expand matches of a
non-empty needle by walking from the view root with max_nodes = 4000. -/
def filter_tree (st : AppState) (needle : String) : AppState :=
  let st1 := { st with expanded := ([] : List (List Nat)) }
  if needle = "" then st1
  else { st1 with expanded := (expand_matching_under st1.fs st1.expanded [] needle 4000).expanded }

/-- MainWindow._apply_name_filter: the needle is the search text stripped
and lowercased. -/
def apply_name_filter (st : AppState) : AppState :=
  filter_tree st (pyLower (pyStrip st.searchText))

/-- QLineEdit.setText on the search box: textChanged fires (and runs
_apply_name_filter) only when the text actually changes. -/
def searchSetText (st : AppState) (t : String) : AppState :=
  if st.searchText = t then st
  else apply_name_filter { st with searchText := t }

/-- MainWindow.set_root: absolutize the path; a non-directory produces a
warning dialog (the returned Option String is its text) and leaves the
state untouched; a directory becomes the new root index, the status bar
shows it, and the search box is cleared. -/
def set_root (env : FileSystem) (st : AppState) (folder : String) : AppState × Option String :=
  let f := env.absPath folder
  if !env.isDirPath f then
    (st, some ("That path is not a directory:\n" ++ f))
  else
    (searchSetText (set_status_root { st with rootPath := f } f) "", none)

/-- MainWindow.selected_index: head of selectionModel().selectedRows(0). -/
def selected_index (st : AppState) : Option (List Nat) :=
  st.selectedRows.head?

/-- QFileSystemModel.filePath: the absolute path of the node an index
denotes, built from the root path and the names along the index; the
empty string embeds the file path of an invalid index. -/
def filePathFrom (t : FSNode) (base : String) : List Nat → String
  | [] => base
  | r :: rs =>
    match t.children.get? r with
    | some c => filePathFrom c (base ++ "/" ++ c.name) rs
    | none => ""

/-- MainWindow.selected_path. -/
def selected_path (st : AppState) : Option String :=
  match selected_index st with
  | none => none
  | some idx => some (filePathFrom st.fs st.rootPath idx)

/-- MainWindow.copy_selected_path: with a selected non-empty path, write
it to the clipboard and show a 2500 ms status message; otherwise do
nothing (`if not path: return`). -/
def copy_selected_path (st : AppState) : AppState :=
  match selected_path st with
  | none => st
  | some path =>
    if path = "" then st
    else { st with clipboard := some path,
                   statusMessage := "Copied: " ++ path, statusTimeout := 2500 }

/-- MainWindow.open_in_explorer: the result is the path handed to
os.startfile, none when nothing is selected (`if not path: return`).  A
directory is opened itself, a file opens its parent directory. -/
def open_in_explorer (env : FileSystem) (st : AppState) : Option String :=
  match selected_path st with
  | none => none
  | some path =>
    if path = "" then none
    else if env.isDirPath path then some path
    else some (env.dirname path)

/-- FilterDialog.patterns: strip the input, split on semicolons, strip
each part and drop the empty ones. -/
def FilterDialog.patterns (input : String) : List String :=
  let raw := pyStrip input
  if raw = "" then []
  else (List.map pyStrip (pySplitSemi raw)).filter (fun p => p ≠ "")

/-- MainWindow.clear_pattern_filter. -/
def clear_pattern_filter (st : AppState) : AppState :=
  { st with nameFilters := [],
            nameFilterDisables := true,
            statusMessage := "File pattern filter cleared", statusTimeout := 2500 }

/-- MainWindow.filter_by_patterns, with the modal dialog outcome passed in
as the accepted flag and the text of the pattern input. -/
def filter_by_patterns (st : AppState) (accepted : Bool) (input : String) : AppState :=
  if !accepted then st
  else
    let patterns := FilterDialog.patterns input
    if patterns = [] then clear_pattern_filter st
    else { st with nameFilters := patterns,
                   nameFilterDisables := false,
                   statusMessage := "Filter: " ++ String.intercalate ";" patterns,
                   statusTimeout := 4000 }

/-- Sample model tree used to instantiate hypotheses at concrete inputs. -/
def sampleTree : FSNode :=
  .node "root" true
    [.node "alpha.py" false [],
     .node "beta" true [.node "gamma.py" false [], .node "delta.txt" false []],
     .node "README.md" false []]

/-- Sample window state over sampleTree. -/
def sampleState : AppState :=
  { fs := sampleTree
    rootPath := "/home/user/project"
    searchText := ""
    statusMessage := "Root: /home/user/project"
    statusTimeout := 0
    clipboard := none
    expanded := []
    nameFilters := []
    nameFilterDisables := true
    selectedRows := [] }

/-- Sample OS environment where every path is a directory and abspath is
the identity. -/
def dirEnv : FileSystem :=
  { isDirPath := fun _ => true, absPath := fun s => s, dirname := fun _ => "" }

/-- Sample OS environment where no path is a directory and abspath is the
identity. -/
def noDirEnv : FileSystem :=
  { isDirPath := fun _ => false, absPath := fun s => s, dirname := fun _ => "" }

theorem take_prefix_self (l : List Nat) (n : Nat) : l.take n <+: l :=
  ⟨l.drop n, List.take_append_drop n l⟩

theorem prefix_dropLast_iff (p q : List Nat) :
    q <+: p ↔ (q = p ∨ q <+: p.dropLast) := by
  rw [List.dropLast_eq_take, List.prefix_take_iff]
  constructor
  · intro h
    by_cases hl : q.length = p.length
    · exact Or.inl (h.eq_of_length hl)
    · have hle := h.length_le
      exact Or.inr ⟨h, by omega⟩
  · rintro (rfl | ⟨h, _⟩)
    · exact ⟨[], List.append_nil q⟩
    · exact h

theorem mem_expandWithAncestors_aux :
    ∀ (n : Nat) (p : List Nat), p.length ≤ n → ∀ (ex : List (List Nat)) (q : List Nat),
      (q ∈ expandWithAncestors p ex ↔ (q <+: p ∨ q ∈ ex)) := by
  intro n
  induction n with
  | zero =>
    intro p hp ex q
    have hpnil : p = [] := List.length_eq_zero.mp (Nat.le_zero.mp hp)
    subst hpnil
    rw [expandWithAncestors]
    simp [List.prefix_nil]
  | succ n ih =>
    intro p hp ex q
    by_cases hpn : p = []
    · subst hpn
      rw [expandWithAncestors]
      simp [List.prefix_nil]
    · rw [expandWithAncestors]
      rw [dif_neg hpn]
      have hlen : p.dropLast.length ≤ n := by
        have h1 : p.dropLast.length = p.length - 1 := List.length_dropLast p
        have h2 : 0 < p.length := List.length_pos.mpr hpn
        omega
      rw [ih p.dropLast hlen (p :: ex) q]
      rw [prefix_dropLast_iff p q]
      simp only [List.mem_cons]
      tauto

theorem mem_expandWithAncestors (p : List Nat) (ex : List (List Nat)) (q : List Nat) :
    q ∈ expandWithAncestors p ex ↔ (q <+: p ∨ q ∈ ex) :=
  mem_expandWithAncestors_aux p.length p (Nat.le_refl _) ex q

theorem expandMatchingLoop_visited_mono (fs : FSNode) (needle : String) :
    ∀ (fuel : Nat) (stack ex vis : List (List Nat)) (v : List Nat), v ∈ vis →
      v ∈ (expandMatchingLoop fs needle stack fuel ex vis).visited := by
  intro fuel
  induction fuel with
  | zero =>
    intro stack ex vis v hv
    cases stack with
    | nil => simpa [expandMatchingLoop] using hv
    | cons idx rest => simpa [expandMatchingLoop] using hv
  | succ fuel ih =>
    intro stack ex vis v hv
    cases stack with
    | nil => simpa [expandMatchingLoop] using hv
    | cons idx rest =>
      cases hres : resolve fs idx with
      | none =>
        simp only [expandMatchingLoop, hres]
        exact ih rest ex (idx :: vis) v (List.mem_cons_of_mem _ hv)
      | some nd =>
        simp only [expandMatchingLoop, hres]
        exact ih _ _ (idx :: vis) v (List.mem_cons_of_mem _ hv)

theorem expandMatchingLoop_expanded_mono (fs : FSNode) (needle : String) :
    ∀ (fuel : Nat) (stack ex vis : List (List Nat)) (p : List Nat), p ∈ ex →
      p ∈ (expandMatchingLoop fs needle stack fuel ex vis).expanded := by
  intro fuel
  induction fuel with
  | zero =>
    intro stack ex vis p hp
    cases stack with
    | nil => simpa [expandMatchingLoop] using hp
    | cons idx rest => simpa [expandMatchingLoop] using hp
  | succ fuel ih =>
    intro stack ex vis p hp
    cases stack with
    | nil => simpa [expandMatchingLoop] using hp
    | cons idx rest =>
      cases hres : resolve fs idx with
      | none =>
        simp only [expandMatchingLoop, hres]
        exact ih rest ex (idx :: vis) p hp
      | some nd =>
        simp only [expandMatchingLoop, hres]
        apply ih
        by_cases hm : strContains (pyLower nd.name) needle
        · simp only [hm, if_true]
          exact (mem_expandWithAncestors idx ex p).mpr (Or.inr hp)
        · simp only [hm, if_false]
          exact hp

theorem expandMatchingLoop_expanded_sound (fs : FSNode) (needle : String) :
    ∀ (fuel : Nat) (stack ex vis : List (List Nat)) (p : List Nat),
      p ∈ (expandMatchingLoop fs needle stack fuel ex vis).expanded →
      p ∈ ex ∨ ∃ q, q ∈ (expandMatchingLoop fs needle stack fuel ex vis).visited ∧
        matchesNeedle fs needle q = true ∧ p <+: q := by
  intro fuel
  induction fuel with
  | zero =>
    intro stack ex vis p hp
    cases stack with
    | nil => exact Or.inl (by simpa [expandMatchingLoop] using hp)
    | cons idx rest => exact Or.inl (by simpa [expandMatchingLoop] using hp)
  | succ fuel ih =>
    intro stack ex vis p hp
    cases stack with
    | nil => exact Or.inl (by simpa [expandMatchingLoop] using hp)
    | cons idx rest =>
      cases hres : resolve fs idx with
      | none =>
        simp only [expandMatchingLoop, hres] at hp ⊢
        exact ih rest ex (idx :: vis) p hp
      | some nd =>
        simp only [expandMatchingLoop, hres] at hp ⊢
        rcases ih _ _ (idx :: vis) p hp with hmem | hex
        · by_cases hm : strContains (pyLower nd.name) needle
          · simp only [hm, if_true] at hmem
            rcases (mem_expandWithAncestors idx ex p).mp hmem with hpre | hold
            · refine Or.inr ⟨idx, ?_, ?_, hpre⟩
              · simp only [hm, if_true]
                exact expandMatchingLoop_visited_mono fs needle fuel _ _ _ idx
                  (List.mem_cons_self _ _)
              · simp [matchesNeedle, hres, hm]
            · exact Or.inl hold
          · simp only [hm, if_false] at hmem
            exact Or.inl hmem
        · exact Or.inr hex

theorem expandMatchingLoop_expanded_complete (fs : FSNode) (needle : String) :
    ∀ (fuel : Nat) (stack ex vis : List (List Nat)) (q : List Nat),
      q ∈ (expandMatchingLoop fs needle stack fuel ex vis).visited →
      matchesNeedle fs needle q = true →
      q ∈ vis ∨ ∀ p, p <+: q →
        p ∈ (expandMatchingLoop fs needle stack fuel ex vis).expanded := by
  intro fuel
  induction fuel with
  | zero =>
    intro stack ex vis q hq _
    cases stack with
    | nil => exact Or.inl (by simpa [expandMatchingLoop] using hq)
    | cons idx rest => exact Or.inl (by simpa [expandMatchingLoop] using hq)
  | succ fuel ih =>
    intro stack ex vis q hq hmatch
    cases stack with
    | nil => exact Or.inl (by simpa [expandMatchingLoop] using hq)
    | cons idx rest =>
      cases hres : resolve fs idx with
      | none =>
        simp only [expandMatchingLoop, hres] at hq ⊢
        rcases ih rest ex (idx :: vis) q hq hmatch with hmem | hall
        · rcases List.mem_cons.mp hmem with rfl | hold
          · simp [matchesNeedle, hres] at hmatch
          · exact Or.inl hold
        · exact Or.inr hall
      | some nd =>
        simp only [expandMatchingLoop, hres] at hq ⊢
        rcases ih _ _ (idx :: vis) q hq hmatch with hmem | hall
        · rcases List.mem_cons.mp hmem with rfl | hold
          · have hm : strContains (pyLower nd.name) needle = true := by
              simpa [matchesNeedle, hres] using hmatch
            refine Or.inr fun p hpre => ?_
            apply expandMatchingLoop_expanded_mono
            simp only [hm, if_true]
            exact (mem_expandWithAncestors q ex p).mpr (Or.inl hpre)
          · exact Or.inl hold
        · exact Or.inr hall

theorem expandMatchingLoop_visited_length (fs : FSNode) (needle : String) :
    ∀ (fuel : Nat) (stack ex vis : List (List Nat)),
      ((expandMatchingLoop fs needle stack fuel ex vis).visited).length ≤
        fuel + vis.length := by
  intro fuel
  induction fuel with
  | zero =>
    intro stack ex vis
    cases stack with
    | nil => simp [expandMatchingLoop]
    | cons idx rest => simp [expandMatchingLoop]
  | succ fuel ih =>
    intro stack ex vis
    cases stack with
    | nil => simp [expandMatchingLoop]
    | cons idx rest =>
      cases hres : resolve fs idx with
      | none =>
        simp only [expandMatchingLoop, hres]
        have := ih rest ex (idx :: vis)
        simp only [List.length_cons] at this
        omega
      | some nd =>
        simp only [expandMatchingLoop, hres]
        have := ih (if nd.isDir then pushChildren fs idx nd.children.length ++ rest else rest)
          (if strContains (pyLower nd.name) needle then expandWithAncestors idx ex else ex)
          (idx :: vis)
        simp only [List.length_cons] at this
        omega

/-- C1: for every path P that is not a directory, set_root (the
choose_folder-equivalent) produces a modal warning dialog whose text names
the (absolutized) invalid path, and returns the application state
completely unchanged, so in particular the root index, the status bar
text and the search text are the same after the call as before.  The
environment hypothesis states that os.path.abspath preserves the
directory-ness os.path.isdir reports. -/
theorem C1_set_root_nondir_warns_and_preserves_state (env : FileSystem) (st : AppState)
    (P : String) (hco : ∀ s, env.isDirPath (env.absPath s) = env.isDirPath s)
    (hP : env.isDirPath P = false) :
    set_root env st P = (st, some ("That path is not a directory:\n" ++ env.absPath P)) := by
  have hdir : env.isDirPath (env.absPath P) = false := by rw [hco]; exact hP
  unfold set_root
  simp [hdir]

/-- C1 witness: a concrete environment in which no path is a directory
and a concrete call showing the warning text and the untouched state. -/
theorem C1_witness :
    set_root noDirEnv sampleState "missing" =
      (sampleState, some "That path is not a directory:\nmissing") :=
  C1_set_root_nondir_warns_and_preserves_state noDirEnv sampleState "missing"
    (fun _ => rfl) rfl

/-- C2: the search traversal of _expand_matching_under visits at most
4000 nodes.  The ghost visited list of the walk records exactly the stack
entries popped by the while loop, one per iteration, so its length bounds
the number of nodes visited: with max_nodes = 4000 it never exceeds 4000,
for every model tree, prior expansion state, start index and needle. -/
theorem C2_search_traversal_visits_at_most_4000 (fs : FSNode) (ex : List (List Nat))
    (parent : List Nat) (needle : String) :
    ((expand_matching_under fs ex parent needle 4000).visited).length ≤ 4000 := by
  have h := expandMatchingLoop_visited_length fs needle 4000 [parent] ex []
  simpa [expand_matching_under] using h

/-- C3: for a non-empty needle, _filter_tree expands exactly the visited
nodes whose lowercase name contains the needle together with all of their
ancestors (every prefix of the index, up to and including the view root),
and nothing else: membership in the expanded set after the filter is
equivalent to being an ancestor-or-self of a matching visited node. -/
theorem C3_filter_expands_exactly_matches_and_ancestors (st : AppState) (needle : String)
    (hne : needle ≠ "") (p : List Nat) :
    p ∈ (filter_tree st needle).expanded ↔
      ∃ q, q ∈ (expand_matching_under st.fs [] [] needle 4000).visited ∧
        matchesNeedle st.fs needle q = true ∧ p <+: q := by
  unfold filter_tree
  rw [if_neg hne]
  constructor
  · intro hp
    rcases expandMatchingLoop_expanded_sound st.fs needle 4000 [[]] [] [] p
        (by simpa [expand_matching_under] using hp) with h | h
    · exact absurd h (List.not_mem_nil p)
    · simpa [expand_matching_under] using h
  · rintro ⟨q, hq, hm, hpre⟩
    rcases expandMatchingLoop_expanded_complete st.fs needle 4000 [[]] [] [] q
        (by simpa [expand_matching_under] using hq) hm with h | h
    · exact absurd h (List.not_mem_nil q)
    · simpa [expand_matching_under] using h p hpre

/-- C3 witness: the equivalence instantiated on the sample tree with the
needle "py" and the index of gamma.py. -/
theorem C3_witness :
    [1, 0] ∈ (filter_tree sampleState "py").expanded ↔
      ∃ q, q ∈ (expand_matching_under sampleState.fs [] [] "py" 4000).visited ∧
        matchesNeedle sampleState.fs "py" q = true ∧ [1, 0] <+: q :=
  C3_filter_expands_exactly_matches_and_ancestors sampleState "py" (by decide) [1, 0]

/-- C4: for every path that is an existing directory, set_root shows no
warning, resets the view root to the absolute form of the path, clears
the search text to the empty string, and updates the status bar to show
the new root path. -/
theorem C4_set_root_dir_resets_root_search_status (env : FileSystem) (st : AppState)
    (P : String) (hco : ∀ s, env.isDirPath (env.absPath s) = env.isDirPath s)
    (hP : env.isDirPath P = true) :
    (set_root env st P).2 = none ∧
    (set_root env st P).1.rootPath = env.absPath P ∧
    (set_root env st P).1.searchText = "" ∧
    (set_root env st P).1.statusMessage = "Root: " ++ env.absPath P := by
  have hdir : env.isDirPath (env.absPath P) = true := by rw [hco]; exact hP
  unfold set_root set_status_root searchSetText
  have htl : pyLower (pyStrip "") = "" := rfl
  by_cases hst : st.searchText = "" <;>
    simp [hdir, hst, htl, apply_name_filter, filter_tree]

/-- C4 witness: a concrete environment where every path is a directory
and abspath is the identity, applied at a concrete folder. -/
theorem C4_witness :
    (set_root dirEnv sampleState "/tmp/data").2 = none ∧
    (set_root dirEnv sampleState "/tmp/data").1.rootPath = dirEnv.absPath "/tmp/data" ∧
    (set_root dirEnv sampleState "/tmp/data").1.searchText = "" ∧
    (set_root dirEnv sampleState "/tmp/data").1.statusMessage =
      "Root: " ++ dirEnv.absPath "/tmp/data" :=
  C4_set_root_dir_resets_root_search_status dirEnv sampleState "/tmp/data"
    (fun _ => rfl) rfl

/-- C5: when no row is selected, copy_selected_path performs no clipboard
mutation and no status-bar update (the whole state is returned
unchanged); when a row is selected (its absolute path being non-empty, as
any real path is), the row's absolute path is written to the clipboard
and a transient 2500 ms status message is shown. -/
theorem C5_copy_selected_path_behavior (st : AppState) :
    (selected_path st = none → copy_selected_path st = st) ∧
    (∀ p, selected_path st = some p → p ≠ "" →
      copy_selected_path st =
        { st with clipboard := some p,
                  statusMessage := "Copied: " ++ p, statusTimeout := 2500 }) := by
  constructor
  · intro h
    unfold copy_selected_path
    rw [h]
  · intro p h hp
    unfold copy_selected_path
    rw [h]
    simp [hp]

/-- C5 witness: no selection leaves the sample state untouched; selecting
gamma.py copies its absolute path and shows the status message. -/
theorem C5_witness :
    copy_selected_path sampleState = sampleState ∧
    copy_selected_path { sampleState with selectedRows := [[1, 0]] } =
      { sampleState with selectedRows := [[1, 0]],
                         clipboard := some "/home/user/project/beta/gamma.py",
                         statusMessage := "Copied: /home/user/project/beta/gamma.py",
                         statusTimeout := 2500 } :=
  ⟨(C5_copy_selected_path_behavior sampleState).1 rfl,
   (C5_copy_selected_path_behavior { sampleState with selectedRows := [[1, 0]] }).2
     "/home/user/project/beta/gamma.py" rfl (by decide)⟩

/-- C6: accepting the pattern dialog with an empty pattern list clears
the active filter (name filters become the empty list, meaning show all);
accepting with a non-empty list installs exactly those patterns as the
model name filters with filter-disables turned off, so non-matching
entries are hidden rather than grayed out. -/
theorem C6_filter_by_patterns_behavior (st : AppState) (input : String) :
    (FilterDialog.patterns input = [] →
      filter_by_patterns st true input = clear_pattern_filter st ∧
      (filter_by_patterns st true input).nameFilters = []) ∧
    (FilterDialog.patterns input ≠ [] →
      (filter_by_patterns st true input).nameFilters = FilterDialog.patterns input ∧
      (filter_by_patterns st true input).nameFilterDisables = false) := by
  constructor
  · intro h
    unfold filter_by_patterns
    simp [h, clear_pattern_filter]
  · intro h
    unfold filter_by_patterns
    simp [h]

/-- C6 witness: a whitespace input clears the filter; the input
"*.py;*.md" installs the two patterns with filter-disables off. -/
theorem C6_witness :
    (filter_by_patterns sampleState true "   " = clear_pattern_filter sampleState ∧
      (filter_by_patterns sampleState true "   ").nameFilters = []) ∧
    ((filter_by_patterns sampleState true "*.py;*.md").nameFilters =
        FilterDialog.patterns "*.py;*.md" ∧
      (filter_by_patterns sampleState true "*.py;*.md").nameFilterDisables = false) :=
  ⟨(C6_filter_by_patterns_behavior sampleState "   ").1 (by decide),
   (C6_filter_by_patterns_behavior sampleState "*.py;*.md").2 (by decide)⟩

/-- C7: on every actual change of the search text, the filter first
collapses the entire tree; when the normalized text is empty nothing is
expanded afterwards (the empty search only collapses), and only a
non-empty normalized text runs the depth-first traversal from the current
root, whose result (started from the fully collapsed state) is the new
expanded set. -/
theorem C7_search_change_collapses_then_filters (st : AppState) (t : String)
    (hchange : st.searchText ≠ t) :
    searchSetText st t =
      (if pyLower (pyStrip t) = "" then { st with searchText := t, expanded := [] }
       else { st with searchText := t,
                      expanded :=
                        (expand_matching_under st.fs [] [] (pyLower (pyStrip t)) 4000).expanded }) := by
  unfold searchSetText
  rw [if_neg hchange]
  unfold apply_name_filter filter_tree
  by_cases h : pyLower (pyStrip t) = "" <;> simp [h]

/-- C7 witness: typing "py" into the sample state (whose search box is
empty) collapses the tree and expands the traversal result. -/
theorem C7_witness :
    searchSetText sampleState "py" =
      (if pyLower (pyStrip "py") = "" then { sampleState with searchText := "py", expanded := [] }
       else { sampleState with searchText := "py",
                               expanded :=
                                 (expand_matching_under sampleState.fs [] []
                                   (pyLower (pyStrip "py")) 4000).expanded }) :=
  C7_search_change_collapses_then_filters sampleState "py" (by decide)

/-- C8: the reveal-in-file-manager action is a no-op when nothing is
selected; with a selected row of (non-empty) absolute path p it hands
os.startfile the path p itself when p is a directory and the parent
directory os.path.dirname(p) when p is a file. -/
theorem C8_open_in_explorer_behavior (env : FileSystem) (st : AppState) :
    (selected_path st = none → open_in_explorer env st = none) ∧
    (∀ p, selected_path st = some p → p ≠ "" →
      open_in_explorer env st =
        some (if env.isDirPath p then p else env.dirname p)) := by
  constructor
  · intro h
    unfold open_in_explorer
    rw [h]
  · intro p h hp
    unfold open_in_explorer
    rw [h]
    by_cases hd : env.isDirPath p <;> simp [hp, hd]

/-- C8 witness: nothing selected is a no-op; with beta selected in an
environment where every path is a directory, explorer opens beta
itself. -/
theorem C8_witness :
    open_in_explorer dirEnv sampleState = none ∧
    open_in_explorer dirEnv { sampleState with selectedRows := [[1]] } =
      some (if dirEnv.isDirPath "/home/user/project/beta" then "/home/user/project/beta"
            else dirEnv.dirname "/home/user/project/beta") :=
  ⟨(C8_open_in_explorer_behavior dirEnv sampleState).1 rfl,
   (C8_open_in_explorer_behavior dirEnv { sampleState with selectedRows := [[1]] }).2
     "/home/user/project/beta" rfl (by decide)⟩

/-- C9: FilterDialog.patterns splits the stripped input on semicolons,
strips each segment and drops the empty segments — the guard returning []
for a blank input coincides with that description — so an empty or
whitespace-only input yields [] and " *.py ; ;*.md" yields exactly
["*.py", "*.md"]. -/
theorem C9_filter_dialog_patterns_split (input : String) :
    FilterDialog.patterns input =
      (List.map pyStrip (pySplitSemi (pyStrip input))).filter (fun p => p ≠ "") ∧
    FilterDialog.patterns " *.py ; ;*.md" = ["*.py", "*.md"] ∧
    FilterDialog.patterns "   " = [] ∧
    FilterDialog.patterns "" = [] := by
  refine ⟨?_, by decide, by decide, by decide⟩
  simp only [FilterDialog.patterns]
  by_cases h : pyStrip input = ""
  · rw [if_pos h, h]
    decide
  · rw [if_neg h]

/-- C10: the needle is the search text stripped and lowercased before any
comparison: a whitespace-only search behaves exactly like the empty
search (collapse only, nothing expanded), and two search texts that agree
after stripping and lowercasing produce the same expanded set. -/
theorem C10_search_needle_normalization (st : AppState) :
    (pyStrip st.searchText = "" → apply_name_filter st = { st with expanded := [] }) ∧
    (∀ t1 t2, pyLower (pyStrip t1) = pyLower (pyStrip t2) →
      (apply_name_filter { st with searchText := t1 }).expanded =
        (apply_name_filter { st with searchText := t2 }).expanded) := by
  constructor
  · intro h
    unfold apply_name_filter filter_tree
    rw [h]
    simp [show pyLower "" = "" from rfl]
  · intro t1 t2 h
    unfold apply_name_filter filter_tree
    dsimp only
    rw [h]
    by_cases hc : pyLower (pyStrip t2) = "" <;> simp [hc]

/-- C10 witness: the sample state has a whitespace-only (empty) search
text, and the searches "  PY " and "py" expand the same set. -/
theorem C10_witness :
    apply_name_filter sampleState = { sampleState with expanded := [] } ∧
    (apply_name_filter { sampleState with searchText := "  PY " }).expanded =
      (apply_name_filter { sampleState with searchText := "py" }).expanded :=
  ⟨(C10_search_needle_normalization sampleState).1 rfl,
   (C10_search_needle_normalization sampleState).2 "  PY " "py" (by decide)⟩
